import Mathlib

/-! Verification of the `sales-bonus` report pipeline (`src/main.js`).

A shallow embedding of the single source file `src/main.js`:

* `calculateSimpleRevenue`  — the reference revenue strategy;
* `calculateBonusByProfit`  — the reference bonus strategy;
* `analyzeSalesData`        — validation, aggregation, ranking, formatting.

Modelling conventions:

* JavaScript numbers are modelled as `JSNum := Option ℚ`, where `none`
  stands for `NaN` and `some q` for the finite number `q`.  Arithmetic on
  `JSNum` propagates `NaN` exactly as IEEE arithmetic on non-infinite
  operands does.  Infinities are outside the model.  Fields that the data
  model treats as counts or percentages (`quantity`, `discount`) are
  modelled as plain rationals; the monetary fields through which the
  source's NaN-guarding logic is observable (`sale_price`,
  `purchase_price`, `total_amount`, and every accumulated total) are
  `JSNum`.
* JavaScript objects used as dictionaries (`sellerIndex`, `productIndex`,
  `products_sold`) are modelled as association lists in insertion order;
  `Object.fromEntries` lets the last entry for duplicate keys win, which
  the lookup functions reproduce.  Prototype-chain leakage and the
  integer-like-key reordering of `Object.entries` are outside the model.
* `Array.prototype.sort` (required stable since ES2019) is modelled by a
  stable insertion sort `stableSort prec` where `prec a b` means the
  comparator puts `a` strictly before `b`; per ES `SortCompare`, a
  comparator result of `NaN` counts as `0` (no strict precedence).
* `x.toFixed(2)` followed by unary `+` is modelled by `toFixed2`:
  rounding of `100·x` to the nearest integer (platform tie-breaking
  modelled by `round`, i.e. half-up), divided by `100`.
* The two `throw new Error(...)` sites are modelled by `Except CoreError`
  with one constructor per error kind the spec names.
-/

open scoped List

/-- A JavaScript number that is either finite (`some q`) or `NaN` (`none`).  -/
abbrev JSNum := Option ℚ

/-- JS addition on `JSNum`: `NaN` propagates.  -/
def jadd : JSNum → JSNum → JSNum
  | some a, some b => some (a + b)
  | _, _ => none

/-- JS subtraction on `JSNum`: `NaN` propagates.  -/
def jsub : JSNum → JSNum → JSNum
  | some a, some b => some (a - b)
  | _, _ => none

/-- JS multiplication on `JSNum` (no infinities in the model): `NaN` propagates.  -/
def jmul : JSNum → JSNum → JSNum
  | some a, some b => some (a * b)
  | _, _ => none

/-- Input seller record: `{ id, first_name, last_name }`.  -/
structure Seller where
  id : String
  first_name : String
  last_name : String
deriving DecidableEq

/-- Input product record: `{ sku, purchase_price }`.  -/
structure Product where
  sku : String
  purchase_price : JSNum
deriving DecidableEq

/-- A line item of a purchase record: `{ sku, quantity, discount, sale_price }`.  -/
structure Item where
  sku : String
  quantity : ℚ
  discount : ℚ
  sale_price : JSNum
deriving DecidableEq

/-- Input purchase record: `{ seller_id, total_amount, items }`.  -/
structure PurchaseRecord where
  seller_id : String
  total_amount : JSNum
  items : List Item
deriving DecidableEq

/-- The raw `data` argument before validation: each of the three fields is
`none` when the corresponding property is not an array.  A wholly absent or
falsy `data` argument is modelled as `none : Option RawData` at the call
site of `analyzeSalesData`.  -/
structure RawData where
  sellers : Option (List Seller)
  products : Option (List Product)
  purchase_records : Option (List PurchaseRecord)
deriving DecidableEq

/-- The working per-seller accumulator created by `analyzeSalesData`
(`{ id, name, revenue, profit, sales_count, products_sold }`);
`products_sold` is the JS object `sku ↦ cumulative quantity`, in key
insertion order.  -/
structure SellerStat where
  id : String
  name : String
  revenue : JSNum
  profit : JSNum
  sales_count : ℕ
  products_sold : List (String × ℚ)
deriving DecidableEq

/-- One `{ sku, quantity }` entry of a seller's `top_products`.  -/
structure TopProduct where
  sku : String
  quantity : ℚ
deriving DecidableEq

/-- A seller statistic after the ranking pass added `bonus` and
`top_products` to it.  -/
structure RankedStat where
  stat : SellerStat
  bonus : JSNum
  top_products : List TopProduct
deriving DecidableEq

/-- One row of the final report.  -/
structure ReportRow where
  seller_id : String
  name : String
  revenue : ℚ
  profit : ℚ
  sales_count : ℕ
  top_products : List TopProduct
  bonus : ℚ
deriving DecidableEq

/-- The `options` argument: either strategy may be absent.  -/
structure RawOptions where
  calculateRevenue : Option (Item → Product → JSNum)
  calculateBonus : Option (ℕ → ℕ → SellerStat → JSNum)

/-- The two error kinds of the core (`InvalidInputError`,
`MissingStrategyError` in the spec's naming).  -/
inductive CoreError where
  | invalidInput
  | missingStrategy
deriving DecidableEq

/-- Source function `calculateSimpleRevenue(purchase, _product)`:
`sale_price * quantity * (1 - discount / 100)`.  -/
def calculateSimpleRevenue (purchase : Item) (_product : Product) : JSNum :=
  let discountCoefficient : ℚ := 1 - purchase.discount / 100
  jmul (jmul purchase.sale_price (some purchase.quantity)) (some discountCoefficient)

/-- Source function `calculateBonusByProfit(index, total, seller)`: the sequential
`if/else` chain of the source, checked in source order.  The JS comparison
`index === total - 1` is taken over the integers.  -/
def calculateBonusByProfit (index total : ℕ) (seller : SellerStat) : JSNum :=
  if index = 0 then
    jmul seller.profit (some (15 / 100))
  else if index = 1 ∨ index = 2 then
    jmul seller.profit (some (10 / 100))
  else if (index : ℤ) = (total : ℤ) - 1 then
    some 0
  else
    jmul seller.profit (some (5 / 100))

/-- The initial `sellerStats` array: one zeroed accumulator per seller, with
`name` = `` `${first_name} ${last_name}` ``.  -/
def makeSellerStats (sellers : List Seller) : List SellerStat :=
  sellers.map fun seller =>
    { id := seller.id
      name := seller.first_name ++ " " ++ seller.last_name
      revenue := some 0
      profit := some 0
      sales_count := 0
      products_sold := [] }

/-- Lookup `productIndex[sku]`: `Object.fromEntries` keeps the last entry for a
duplicated key, so lookup finds the last matching product.  -/
def findProduct (products : List Product) (sku : String) : Option Product :=
  products.reverse.find? fun p => p.sku == sku

/-- Lookup `sellerIndex[record.seller_id]` together with the mutation through the
shared reference: apply `f` to the last stat whose `id` matches (the entry
`Object.fromEntries` would keep); leave the list unchanged if none does.  -/
def updateLastMatching (id : String) (f : SellerStat → SellerStat) :
    List SellerStat → List SellerStat
  | [] => []
  | s :: rest =>
    if rest.any (fun t => t.id == id) then s :: updateLastMatching id f rest
    else if s.id == id then f s :: rest
    else s :: rest

/-- Update `seller.products_sold[item.sku] += item.quantity`, initializing the key
to `0` on first occurrence (JS also resets a falsy stored `0` to `0`, which
is the identity).  -/
def bumpSku (sku : String) (q : ℚ) : List (String × ℚ) → List (String × ℚ)
  | [] => [(sku, q)]
  | (k, v) :: rest =>
    if k == sku then (k, v + q) :: rest else (k, v) :: bumpSku sku q rest

/-- The body of the inner `record.items.forEach`: skip unknown SKUs,
otherwise add `calculateRevenue(item, product) - purchase_price * quantity`
to the seller's profit and bump the per-SKU counter.  -/
def processItem (calculateRevenue : Item → Product → JSNum) (products : List Product)
    (seller : SellerStat) (item : Item) : SellerStat :=
  match findProduct products item.sku with
  | none => seller
  | some product =>
    let cost := jmul product.purchase_price (some item.quantity)
    let revenue := calculateRevenue item product
    let profit := jsub revenue cost
    { seller with
        profit := jadd seller.profit profit
        products_sold := bumpSku item.sku item.quantity seller.products_sold }

/-- The body of the outer `data.purchase_records.forEach`: skip records whose
`seller_id` matches no stat; otherwise bump `sales_count`, add
`total_amount` to revenue, then fold the items in order.  -/
def processRecord (calculateRevenue : Item → Product → JSNum) (products : List Product)
    (stats : List SellerStat) (record : PurchaseRecord) : List SellerStat :=
  updateLastMatching record.seller_id
    (fun seller =>
      record.items.foldl (processItem calculateRevenue products)
        { seller with
            sales_count := seller.sales_count + 1
            revenue := jadd seller.revenue record.total_amount })
    stats

/-- The whole aggregation pass over `purchase_records`, in input order.  -/
def aggregate (calculateRevenue : Item → Product → JSNum) (products : List Product)
    (stats : List SellerStat) (records : List PurchaseRecord) : List SellerStat :=
  records.foldl (processRecord calculateRevenue products) stats

/-- Relation `prec a b` = the comparator `(a, b) => b.profit - a.profit` puts `a`
strictly before `b` (a negative result); per ES `SortCompare`, `NaN` counts
as `0`, so a `NaN` profit never precedes and is never preceded.  -/
def profitPrec (a b : SellerStat) : Bool :=
  match a.profit, b.profit with
  | some pa, some pb => decide (pb < pa)
  | _, _ => false

/-- Stable insertion of `x` into an already-sorted list: `x` goes right
before the first element it strictly precedes, hence after every earlier
element it compares equal to.  -/
def insertStable (prec : α → α → Bool) (x : α) : List α → List α
  | [] => [x]
  | y :: ys => if prec x y then x :: y :: ys else y :: insertStable prec x ys

/-- A stable sort (the behaviour ES2019 requires of `Array.prototype.sort`):
fold the input in order, inserting each element stably.  -/
def stableSort (prec : α → α → Bool) (l : List α) : List α :=
  l.foldl (fun acc x => insertStable prec x acc) []

/-- Relation `prec a b` for the `top_products` comparator
`(a, b) => b.quantity - a.quantity`.  -/
def quantityPrec (a b : TopProduct) : Bool :=
  decide (b.quantity < a.quantity)

/-- The seller's `products_sold` object as the `{sku, quantity}` list
`Object.entries(...)` produces, in key insertion order.  -/
def sellerEntries (seller : SellerStat) : List TopProduct :=
  seller.products_sold.map fun e => { sku := e.1, quantity := e.2 }

/-- Derivation of `top_products`: entries sorted by descending quantity, first 10 kept.  -/
def topProducts (seller : SellerStat) : List TopProduct :=
  (stableSort quantityPrec (sellerEntries seller)).take 10

/-- The ranking `forEach`: attach `calculateBonus(index, total, seller)` and
`top_products` to each sorted stat, indices counting up from `i`.  -/
def assignRank (calculateBonus : ℕ → ℕ → SellerStat → JSNum) (total : ℕ) :
    ℕ → List SellerStat → List RankedStat
  | _, [] => []
  | i, s :: rest =>
    { stat := s, bonus := calculateBonus i total s, top_products := topProducts s } ::
      assignRank calculateBonus total (i + 1) rest

/-- Coercion `+x.toFixed(2)`: round `100·x` to the nearest integer and divide by
`100` (tie-breaking modelled by `round`, consistent with the spec's
"platform default rounding" allowance).  -/
def toFixed2 (q : ℚ) : ℚ :=
  (round (q * 100) : ℚ) / 100

/-- Guard `isNaN(v) ? 0 : +v.toFixed(2)`.  -/
def nanGuardRound (v : JSNum) : ℚ :=
  match v with
  | none => 0
  | some q => toFixed2 q

/-- The final projection of one ranked stat into a report row
(`String(x || '')`, `Number(x || 0)` and the `Array.isArray` guard written
out literally; `top_products` is always a list in the model).  -/
def formatRow (r : RankedStat) : ReportRow :=
  { seller_id := if r.stat.id = "" then "" else r.stat.id
    name := if r.stat.name = "" then "" else r.stat.name
    revenue := nanGuardRound r.stat.revenue
    profit := nanGuardRound r.stat.profit
    sales_count := if r.stat.sales_count = 0 then 0 else r.stat.sales_count
    top_products := r.top_products
    bonus := nanGuardRound r.bonus }

/-- Everything `analyzeSalesData` does after validation succeeds.  -/
def runPipeline (sellers : List Seller) (products : List Product)
    (records : List PurchaseRecord) (calculateRevenue : Item → Product → JSNum)
    (calculateBonus : ℕ → ℕ → SellerStat → JSNum) : List ReportRow :=
  let sellerStats := aggregate calculateRevenue products (makeSellerStats sellers) records
  let sorted := stableSort profitPrec sellerStats
  let ranked := assignRank calculateBonus sorted.length 0 sorted
  ranked.map formatRow

/-- Entry point `analyzeSalesData(data, options)`: validation, strategy check, then the
pipeline.  `data` is `none` when the argument is falsy; a field of the
record is `none` when the property fails `Array.isArray`.  -/
def analyzeSalesData (data : Option RawData) (options : RawOptions) :
    Except CoreError (List ReportRow) :=
  match data with
  | none => .error .invalidInput
  | some d =>
    match d.sellers, d.products, d.purchase_records with
    | some sellers, some products, some records =>
      if sellers.isEmpty ∨ products.isEmpty ∨ records.isEmpty then
        .error .invalidInput
      else
        match options.calculateRevenue, options.calculateBonus with
        | some calculateRevenue, some calculateBonus =>
          .ok (runPipeline sellers products records calculateRevenue calculateBonus)
        | _, _ => .error .missingStrategy
    | _, _, _ => .error .invalidInput

/-! ## Basic algebraic facts about `JSNum` arithmetic -/

theorem jadd_some_zero (v : JSNum) : jadd v (some 0) = v := by
  cases v <;> simp [jadd]

theorem jadd_assoc (a b c : JSNum) : jadd (jadd a b) c = jadd a (jadd b c) := by
  cases a <;> cases b <;> cases c <;> simp [jadd] <;> ring

/-! ## Claim C1 -/

/-- C1, counterexample.  The claim says `calculateBonusByProfit(0, 1, seller) = 0`
for every seller (last-rank rule first).  The source checks `index === 0`
first, so a sole seller with profit `10` gets bonus `1.5`, not `0`.  -/
theorem c1_sole_seller_zero_cex :
    calculateBonusByProfit 0 1 ⟨"s1", "Ann Lee", some 0, some 10, 0, []⟩ = some (3 / 2) ∧
      calculateBonusByProfit 0 1 ⟨"s1", "Ann Lee", some 0, some 10, 0, []⟩ ≠ some 0 := by
  norm_num [calculateBonusByProfit, jmul]

/-- C1, amended.  With a single seller the *first*-rank rule takes
precedence: `calculateBonusByProfit(0, 1, seller)` is `0.15 × seller.profit`
for every seller.  -/
theorem c1_sole_seller_bonus (seller : SellerStat) :
    calculateBonusByProfit 0 1 seller = jmul seller.profit (some (15 / 100)) := by
  simp [calculateBonusByProfit]

/-! ## Claim C4 -/

/-- C4, counterexample.  Read as four independent rules the claim is
inconsistent with the code: at `index = 1`, `total = 2` the rank is the last
one (`index = total - 1`), so the claim requires bonus `0`, but the source's
earlier `index === 1 || index === 2` branch fires and returns
`0.10 × profit = 1` for a seller with profit `10`.  -/
theorem c4_bonus_table_cex :
    (1 : ℤ) = (2 : ℤ) - 1 ∧
      calculateBonusByProfit 1 2 ⟨"s1", "Ann Lee", some 0, some 10, 0, []⟩ = some 1 ∧
      calculateBonusByProfit 1 2 ⟨"s1", "Ann Lee", some 0, some 10, 0, []⟩ ≠ some 0 := by
  norm_num [calculateBonusByProfit, jmul]

/-- C4, amended.  The four bonus rules apply *in source order*, the first
matching one winning: `0.15 × profit` at rank 0; else `0.10 × profit` at
ranks 1–2; else `0` at the last rank; else `0.05 × profit`.  -/
theorem c4_bonus_table (index total : ℕ) (seller : SellerStat) :
    (index = 0 →
      calculateBonusByProfit index total seller = jmul seller.profit (some (15 / 100))) ∧
    (index = 1 ∨ index = 2 →
      calculateBonusByProfit index total seller = jmul seller.profit (some (10 / 100))) ∧
    (3 ≤ index → (index : ℤ) = (total : ℤ) - 1 →
      calculateBonusByProfit index total seller = some 0) ∧
    (3 ≤ index → (index : ℤ) ≠ (total : ℤ) - 1 →
      calculateBonusByProfit index total seller = jmul seller.profit (some (5 / 100))) := by
  refine ⟨fun h0 => ?_, fun h12 => ?_, fun h3 hlast => ?_, fun h3 hnot => ?_⟩
  · simp [calculateBonusByProfit, h0]
  · rcases h12 with h | h <;> subst h <;> simp [calculateBonusByProfit]
  · have : index ≠ 0 := by omega
    have h1 : ¬(index = 1 ∨ index = 2) := by omega
    simp [calculateBonusByProfit, this, h1, hlast]
  · have : index ≠ 0 := by omega
    have h1 : ¬(index = 1 ∨ index = 2) := by omega
    simp [calculateBonusByProfit, this, h1, hnot]

/-- C4, witness.  The amended rule table evaluated at ranks 0, 2, 8 and 5
of 9 sellers, for a seller with profit 10.  -/
theorem c4_bonus_table_witness :
    calculateBonusByProfit 0 9 ⟨"s", "n", some 0, some 10, 0, []⟩ = some (3 / 2) ∧
    calculateBonusByProfit 2 9 ⟨"s", "n", some 0, some 10, 0, []⟩ = some 1 ∧
    calculateBonusByProfit 8 9 ⟨"s", "n", some 0, some 10, 0, []⟩ = some 0 ∧
    calculateBonusByProfit 5 9 ⟨"s", "n", some 0, some 10, 0, []⟩ = some (1 / 2) := by
  refine ⟨?_, ?_, ?_, ?_⟩
  · have h := (c4_bonus_table 0 9 ⟨"s", "n", some 0, some 10, 0, []⟩).1 rfl
    rw [h]; norm_num [jmul]
  · have h := (c4_bonus_table 2 9 ⟨"s", "n", some 0, some 10, 0, []⟩).2.1 (Or.inr rfl)
    rw [h]; norm_num [jmul]
  · exact (c4_bonus_table 8 9 ⟨"s", "n", some 0, some 10, 0, []⟩).2.2.1 (by norm_num) (by norm_num)
  · have h := (c4_bonus_table 5 9 ⟨"s", "n", some 0, some 10, 0, []⟩).2.2.2
      (by norm_num) (by norm_num)
    rw [h]; norm_num [jmul]

/-! ## Claim C5 -/

/-- The failure condition the spec states for `InvalidInputError`: the data
argument is missing/falsy, or one of the three collections is not an array,
or one of them is empty.  -/
def badInput (data : Option RawData) : Prop :=
  data = none ∨
    ∃ d, data = some d ∧
      (d.sellers = none ∨ d.products = none ∨ d.purchase_records = none ∨
        d.sellers = some [] ∨ d.products = some [] ∨ d.purchase_records = some [])

/-- C5.  `analyzeSalesData` fails with `InvalidInputError` — whatever the
options are, hence before the strategy check and before any aggregation —
exactly when the input is missing, one of the three collections is not an
array, or one of them is empty.  -/
theorem c5_invalid_input_iff (data : Option RawData) :
    (∀ options, analyzeSalesData data options = .error .invalidInput) ↔ badInput data := by
  constructor
  · intro h
    have hfull := h ⟨some (fun _ _ => some 0), some (fun _ _ _ => some 0)⟩
    cases data with
    | none => exact Or.inl rfl
    | some d =>
      rcases d with ⟨os, op, or⟩
      refine Or.inr ⟨⟨os, op, or⟩, rfl, ?_⟩
      cases os with
      | none => exact Or.inl rfl
      | some ss =>
        cases op with
        | none => exact Or.inr (Or.inl rfl)
        | some ps =>
          cases or with
          | none => exact Or.inr (Or.inr (Or.inl rfl))
          | some rs =>
            simp only [analyzeSalesData] at hfull
            by_cases hss : ss.isEmpty
            · exact Or.inr (Or.inr (Or.inr (Or.inl (by
                simp [List.isEmpty_iff.mp hss]))))
            · by_cases hps : ps.isEmpty
              · exact Or.inr (Or.inr (Or.inr (Or.inr (Or.inl (by
                  simp [List.isEmpty_iff.mp hps])))))
              · by_cases hrs : rs.isEmpty
                · exact Or.inr (Or.inr (Or.inr (Or.inr (Or.inr (by
                    simp [List.isEmpty_iff.mp hrs])))))
                · exfalso
                  rw [if_neg (by simp [hss, hps, hrs])] at hfull
                  exact Except.noConfusion hfull
  · intro hb options
    rcases hb with h | ⟨d, hd, hcase⟩
    · subst h; rfl
    · subst hd
      rcases d with ⟨os, op, or⟩
      rcases hcase with h | h | h | h | h | h <;> simp_all <;>
        cases os <;> cases op <;> cases or <;>
          simp_all [analyzeSalesData]

/-! ## Aggregation lemmas -/

theorem updateLastMatching_of_no_match (id : String) (f : SellerStat → SellerStat)
    (l : List SellerStat) (h : ∀ s ∈ l, s.id ≠ id) :
    updateLastMatching id f l = l := by
  induction l with
  | nil => rfl
  | cons s rest ih =>
    have hrest : rest.any (fun t => t.id == id) = false := by
      simp only [List.any_eq_false, beq_iff_eq]
      exact fun t ht => h t (List.mem_cons_of_mem _ ht)
    have hs : (s.id == id) = false := by
      simp only [beq_eq_false_iff_ne, ne_eq]
      exact h s (List.mem_cons_self _ _)
    simp [updateLastMatching, hrest, hs]

theorem updateLastMatching_map_id (id : String) (f : SellerStat → SellerStat)
    (hf : ∀ s, (f s).id = s.id) (l : List SellerStat) :
    (updateLastMatching id f l).map (fun s => s.id) = l.map (fun s => s.id) := by
  induction l with
  | nil => rfl
  | cons s rest ih =>
    by_cases hrest : rest.any (fun t => t.id == id)
    · simp [updateLastMatching, hrest, ih]
    · by_cases hs : s.id == id
      · simp [updateLastMatching, hrest, hs, hf]
      · simp [updateLastMatching, hrest, hs]

theorem updateLastMatching_split (id : String) (f : SellerStat → SellerStat)
    (pre post : List SellerStat) (s : SellerStat)
    (hs : s.id = id) (hpost : ∀ t ∈ post, t.id ≠ id) :
    updateLastMatching id f (pre ++ s :: post) = pre ++ f s :: post := by
  induction pre with
  | nil =>
    have hpost' : post.any (fun t => t.id == id) = false := by
      simp only [List.any_eq_false, beq_iff_eq]
      exact hpost
    simp [updateLastMatching, hpost', hs]
  | cons p pre' ih =>
    have hany : ((pre' ++ s :: post).any (fun t => t.id == id)) = true := by
      simp only [List.any_eq_true]
      exact ⟨s, by simp, by simp [hs]⟩
    simp [updateLastMatching, hany, ih]

theorem processItem_id (cr : Item → Product → JSNum) (ps : List Product)
    (s : SellerStat) (it : Item) : (processItem cr ps s it).id = s.id := by
  unfold processItem
  cases findProduct ps it.sku <;> simp

theorem foldl_processItem_fields (cr : Item → Product → JSNum) (ps : List Product)
    (items : List Item) (s : SellerStat) :
    (items.foldl (processItem cr ps) s).id = s.id ∧
    (items.foldl (processItem cr ps) s).name = s.name ∧
    (items.foldl (processItem cr ps) s).sales_count = s.sales_count ∧
    (items.foldl (processItem cr ps) s).revenue = s.revenue := by
  induction items generalizing s with
  | nil => simp
  | cons it rest ih =>
    have hstep : (processItem cr ps s it).id = s.id ∧
        (processItem cr ps s it).name = s.name ∧
        (processItem cr ps s it).sales_count = s.sales_count ∧
        (processItem cr ps s it).revenue = s.revenue := by
      unfold processItem
      cases findProduct ps it.sku <;> simp
    obtain ⟨h1, h2, h3, h4⟩ := hstep
    obtain ⟨g1, g2, g3, g4⟩ := ih (processItem cr ps s it)
    exact ⟨by simp [List.foldl_cons, g1, h1], by simp [List.foldl_cons, g2, h2],
      by simp [List.foldl_cons, g3, h3], by simp [List.foldl_cons, g4, h4]⟩

theorem processRecord_map_id (cr : Item → Product → JSNum) (ps : List Product)
    (stats : List SellerStat) (r : PurchaseRecord) :
    (processRecord cr ps stats r).map (fun s => s.id) = stats.map (fun s => s.id) := by
  unfold processRecord
  apply updateLastMatching_map_id
  intro s
  exact (foldl_processItem_fields cr ps r.items _).1

theorem aggregate_map_id (cr : Item → Product → JSNum) (ps : List Product)
    (stats : List SellerStat) (rs : List PurchaseRecord) :
    (aggregate cr ps stats rs).map (fun s => s.id) = stats.map (fun s => s.id) := by
  induction rs generalizing stats with
  | nil => rfl
  | cons r rest ih =>
    unfold aggregate at ih ⊢
    rw [List.foldl_cons, ih, processRecord_map_id]

theorem makeSellerStats_map_id (sellers : List Seller) :
    (makeSellerStats sellers).map (fun s => s.id) = sellers.map (fun s => s.id) := by
  simp [makeSellerStats]

theorem processRecord_skip (cr : Item → Product → JSNum) (ps : List Product)
    (stats : List SellerStat) (r : PurchaseRecord)
    (h : ∀ s ∈ stats, s.id ≠ r.seller_id) :
    processRecord cr ps stats r = stats :=
  updateLastMatching_of_no_match _ _ _ h

theorem findProduct_eq_none (ps : List Product) (sku : String)
    (h : ∀ p ∈ ps, p.sku ≠ sku) : findProduct ps sku = none := by
  unfold findProduct
  rw [List.find?_eq_none]
  intro p hp
  simp only [beq_iff_eq]
  exact h p (List.mem_reverse.mp hp)

theorem processItem_skip (cr : Item → Product → JSNum) (ps : List Product)
    (s : SellerStat) (it : Item) (h : ∀ p ∈ ps, p.sku ≠ it.sku) :
    processItem cr ps s it = s := by
  unfold processItem
  rw [findProduct_eq_none ps it.sku h]

theorem aggregate_append (cr : Item → Product → JSNum) (ps : List Product)
    (stats : List SellerStat) (l₁ l₂ : List PurchaseRecord) :
    aggregate cr ps stats (l₁ ++ l₂) = aggregate cr ps (aggregate cr ps stats l₁) l₂ := by
  unfold aggregate
  exact List.foldl_append ..

theorem aggregate_cons (cr : Item → Product → JSNum) (ps : List Product)
    (stats : List SellerStat) (r : PurchaseRecord) (recs : List PurchaseRecord) :
    aggregate cr ps stats (r :: recs) = aggregate cr ps (processRecord cr ps stats r) recs :=
  rfl

theorem mem_aggregate_id (cr : Item → Product → JSNum) (ps : List Product)
    (ss : List Seller) (recs : List PurchaseRecord) (s : SellerStat)
    (hs : s ∈ aggregate cr ps (makeSellerStats ss) recs) :
    ∃ seller ∈ ss, seller.id = s.id := by
  have h1 : s.id ∈ (aggregate cr ps (makeSellerStats ss) recs).map (fun t => t.id) :=
    List.mem_map_of_mem _ hs
  rw [aggregate_map_id, makeSellerStats_map_id] at h1
  obtain ⟨seller, hmem, heq⟩ := List.mem_map.mp h1
  exact ⟨seller, hmem, heq⟩

/-! ## Claim C2 -/

/-- C2.  On validated input with both strategies supplied the core
returns a result (never an error); a purchase record whose `seller_id`
matches no seller drops out of the pipeline entirely; a line item whose
`sku` matches no product drops out of its record's processing; and the only
error values the core can produce are the two named kinds.  -/
theorem c2_error_tolerance
    (d : RawData) (options : RawOptions) (ss : List Seller) (ps : List Product)
    (rs : List PurchaseRecord) (cr : Item → Product → JSNum)
    (cb : ℕ → ℕ → SellerStat → JSNum) :
    (d.sellers = some ss → d.products = some ps → d.purchase_records = some rs →
      ss ≠ [] → ps ≠ [] → rs ≠ [] →
      options.calculateRevenue = some cr → options.calculateBonus = some cb →
      analyzeSalesData (some d) options = .ok (runPipeline ss ps rs cr cb)) ∧
    (∀ (recs₁ recs₂ : List PurchaseRecord) (r : PurchaseRecord),
      (∀ seller ∈ ss, seller.id ≠ r.seller_id) →
      runPipeline ss ps (recs₁ ++ r :: recs₂) cr cb =
        runPipeline ss ps (recs₁ ++ recs₂) cr cb) ∧
    (∀ (stats : List SellerStat) (r : PurchaseRecord) (its₁ its₂ : List Item) (it : Item),
      (∀ p ∈ ps, p.sku ≠ it.sku) →
      processRecord cr ps stats { r with items := its₁ ++ it :: its₂ } =
        processRecord cr ps stats { r with items := its₁ ++ its₂ }) ∧
    (∀ (data : Option RawData) (e : CoreError),
      analyzeSalesData data options = .error e →
      e = CoreError.invalidInput ∨ e = CoreError.missingStrategy) := by
  refine ⟨?_, ?_, ?_, ?_⟩
  · intro hs hp hr hss hps hrs hcr hcb
    have hss' : ss.isEmpty = false := by simp [List.isEmpty_iff, hss]
    have hps' : ps.isEmpty = false := by simp [List.isEmpty_iff, hps]
    have hrs' : rs.isEmpty = false := by simp [List.isEmpty_iff, hrs]
    simp only [analyzeSalesData, hs, hp, hr, hcr, hcb, hss', hps', hrs']
    simp
  · intro recs₁ recs₂ r hr
    have hagg : aggregate cr ps (makeSellerStats ss) (recs₁ ++ r :: recs₂) =
        aggregate cr ps (makeSellerStats ss) (recs₁ ++ recs₂) := by
      rw [aggregate_append, aggregate_append]
      have hskip : processRecord cr ps (aggregate cr ps (makeSellerStats ss) recs₁) r =
          aggregate cr ps (makeSellerStats ss) recs₁ := by
        apply processRecord_skip
        intro s hsmem heq
        obtain ⟨seller, hmem, hid⟩ := mem_aggregate_id cr ps ss recs₁ s hsmem
        exact hr seller hmem (hid.trans heq)
      rw [aggregate_cons, hskip]
    unfold runPipeline
    rw [hagg]
  · intro stats r its₁ its₂ it hit
    unfold processRecord
    have hfun : ∀ seller : SellerStat,
        (its₁ ++ it :: its₂).foldl (processItem cr ps)
          { seller with sales_count := seller.sales_count + 1
                        revenue := jadd seller.revenue r.total_amount } =
        (its₁ ++ its₂).foldl (processItem cr ps)
          { seller with sales_count := seller.sales_count + 1
                        revenue := jadd seller.revenue r.total_amount } := by
      intro seller
      rw [List.foldl_append, List.foldl_append, List.foldl_cons,
        processItem_skip cr ps _ it hit]
    simp only [hfun]
  · intro data e _
    cases e
    · exact Or.inl rfl
    · exact Or.inr rfl

/-- C2, witness.  The three tolerance statements instantiated on a
one-seller dataset: the call succeeds, a record for the unknown seller
`"zz"` changes nothing, and an item with the unknown SKU `"q9"` changes
nothing.  -/
theorem c2_error_tolerance_witness :
    analyzeSalesData
        (some ⟨some [⟨"s1", "Ann", "Lee"⟩], some [⟨"p1", some 10⟩],
          some [⟨"s1", some 30, [⟨"p1", 2, 0, some 15⟩]⟩]⟩)
        ⟨some calculateSimpleRevenue, some calculateBonusByProfit⟩ =
      .ok (runPipeline [⟨"s1", "Ann", "Lee"⟩] [⟨"p1", some 10⟩]
        [⟨"s1", some 30, [⟨"p1", 2, 0, some 15⟩]⟩]
        calculateSimpleRevenue calculateBonusByProfit) ∧
    runPipeline [⟨"s1", "Ann", "Lee"⟩] [⟨"p1", some 10⟩]
        ([] ++ ⟨"zz", some 5, []⟩ :: [⟨"s1", some 30, [⟨"p1", 2, 0, some 15⟩]⟩])
        calculateSimpleRevenue calculateBonusByProfit =
      runPipeline [⟨"s1", "Ann", "Lee"⟩] [⟨"p1", some 10⟩]
        ([] ++ [⟨"s1", some 30, [⟨"p1", 2, 0, some 15⟩]⟩])
        calculateSimpleRevenue calculateBonusByProfit ∧
    processRecord calculateSimpleRevenue [⟨"p1", some 10⟩] []
        { seller_id := "s1", total_amount := some 30,
          items := [] ++ ⟨"q9", 1, 0, some 5⟩ :: [⟨"p1", 2, 0, some 15⟩] } =
      processRecord calculateSimpleRevenue [⟨"p1", some 10⟩] []
        { seller_id := "s1", total_amount := some 30,
          items := [] ++ [⟨"p1", 2, 0, some 15⟩] } := by
  have h := c2_error_tolerance
    ⟨some [⟨"s1", "Ann", "Lee"⟩], some [⟨"p1", some 10⟩],
      some [⟨"s1", some 30, [⟨"p1", 2, 0, some 15⟩]⟩]⟩
    ⟨some calculateSimpleRevenue, some calculateBonusByProfit⟩
    [⟨"s1", "Ann", "Lee"⟩] [⟨"p1", some 10⟩]
    [⟨"s1", some 30, [⟨"p1", 2, 0, some 15⟩]⟩]
    calculateSimpleRevenue calculateBonusByProfit
  refine ⟨h.1 rfl rfl rfl (by simp) (by simp) (by simp) rfl rfl, ?_, ?_⟩
  · exact h.2.1 [] [⟨"s1", some 30, [⟨"p1", 2, 0, some 15⟩]⟩] ⟨"zz", some 5, []⟩
      (by decide)
  · exact h.2.2.1 [] ⟨"s1", some 30, []⟩ [] [⟨"p1", 2, 0, some 15⟩] ⟨"q9", 1, 0, some 5⟩
      (by decide)

/-! ## Claim C3 -/

/-- Sum of a list of JS numbers (`NaN` propagating), used to state what the
item fold adds to a seller's profit.  -/
def jsum (l : List JSNum) : JSNum := l.foldr jadd (some 0)

/-- The per-item profit contributions of a record's items, in input order:
`calculateRevenue(item, product) - purchase_price * quantity` for each item
whose SKU resolves, nothing for the others.  -/
def itemProfits (cr : Item → Product → JSNum) (ps : List Product)
    (items : List Item) : List JSNum :=
  items.filterMap fun it => (findProduct ps it.sku).map fun p =>
    jsub (cr it p) (jmul p.purchase_price (some it.quantity))

/-- The quantity stored under key `k` of a `products_sold` object
(`0` when the key is absent).  -/
def qtyOf (l : List (String × ℚ)) (k : String) : ℚ :=
  match l.find? (fun e => e.1 == k) with
  | some e => e.2
  | none => 0

/-- Total quantity the items of a record contribute to key `k`: quantities
of items with SKU `k` whose product lookup succeeds.  -/
def itemQtySum (ps : List Product) (items : List Item) (k : String) : ℚ :=
  ((items.filter fun it => it.sku == k && (findProduct ps it.sku).isSome).map
    (fun it => it.quantity)).sum

theorem qtyOf_bumpSku (sku : String) (q : ℚ) (l : List (String × ℚ)) (k : String) :
    qtyOf (bumpSku sku q l) k = if k = sku then qtyOf l k + q else qtyOf l k := by
  induction l with
  | nil =>
    by_cases hk : k = sku
    · subst hk; simp [qtyOf, bumpSku]
    · have hsk : ¬sku = k := fun h => hk h.symm
      simp [qtyOf, bumpSku, hk, hsk]
  | cons e rest ih =>
    obtain ⟨k', v⟩ := e
    by_cases hk' : k' = sku
    · subst hk'
      by_cases hk : k = k'
      · subst hk
        simp [qtyOf, bumpSku]
      · have hk'' : ¬k' = k := fun h => hk h.symm
        simp [qtyOf, bumpSku, hk, hk'']
    · by_cases hk : k' = k
      · subst hk
        have hks : ¬k' = sku := hk'
        simp [qtyOf, bumpSku, hks, fun h => hks (h : k' = sku)]
      · have hb : (k' == k) = false := by simp [hk]
        simp only [bumpSku, beq_iff_eq, hk', if_false]
        simp only [qtyOf, List.find?_cons, hb]
        simpa [qtyOf] using ih

theorem foldl_processItem_profit (cr : Item → Product → JSNum) (ps : List Product)
    (items : List Item) (s : SellerStat) :
    (items.foldl (processItem cr ps) s).profit =
      jadd s.profit (jsum (itemProfits cr ps items)) := by
  induction items generalizing s with
  | nil => simp [itemProfits, jsum, jadd_some_zero]
  | cons it rest ih =>
    cases hfp : findProduct ps it.sku with
    | none =>
      have hstep : processItem cr ps s it = s := by
        unfold processItem; rw [hfp]
      rw [List.foldl_cons, hstep, ih]
      simp [itemProfits, hfp]
    | some p =>
      have hstep : processItem cr ps s it =
          { s with
              profit := jadd s.profit
                (jsub (cr it p) (jmul p.purchase_price (some it.quantity)))
              products_sold := bumpSku it.sku it.quantity s.products_sold } := by
        unfold processItem; rw [hfp]
      rw [List.foldl_cons, hstep, ih]
      simp only [itemProfits, List.filterMap_cons, hfp, Option.map_some]
      show jadd (jadd s.profit _) _ = jadd s.profit (jsum (_ :: _))
      rw [jadd_assoc]
      rfl

theorem foldl_processItem_qty (cr : Item → Product → JSNum) (ps : List Product)
    (items : List Item) (s : SellerStat) (k : String) :
    qtyOf (items.foldl (processItem cr ps) s).products_sold k =
      qtyOf s.products_sold k + itemQtySum ps items k := by
  induction items generalizing s with
  | nil => simp [itemQtySum]
  | cons it rest ih =>
    cases hfp : findProduct ps it.sku with
    | none =>
      have hstep : processItem cr ps s it = s := by
        unfold processItem; rw [hfp]
      have hcond : (it.sku == k && (findProduct ps it.sku).isSome) = false := by
        simp [hfp]
      rw [List.foldl_cons, hstep, ih]
      simp [itemQtySum, List.filter_cons, hcond]
    | some p =>
      have hstep : processItem cr ps s it =
          { s with
              profit := jadd s.profit
                (jsub (cr it p) (jmul p.purchase_price (some it.quantity)))
              products_sold := bumpSku it.sku it.quantity s.products_sold } := by
        unfold processItem; rw [hfp]
      rw [List.foldl_cons, hstep, ih]
      simp only [qtyOf_bumpSku]
      by_cases hk : k = it.sku
      · subst hk
        have hcond : (it.sku == it.sku && (findProduct ps it.sku).isSome) = true := by
          simp [hfp]
        simp only [if_pos rfl, itemQtySum, List.filter_cons, hcond, if_true,
          List.map_cons, List.sum_cons]
        ring
      · have hbe : (it.sku == k) = false := by
          simp only [beq_eq_false_iff_ne, ne_eq]
          exact fun h => hk h.symm
        have hcond : (it.sku == k && (findProduct ps it.sku).isSome) = false := by
          simp [hbe]
        rw [if_neg hk]
        simp [itemQtySum, List.filter_cons, hcond]

/-- C3.  Processing one purchase record whose `seller_id` resolves (to
the last matching stat, as the JS index does) changes exactly that stat:
`sales_count` goes up by one, `total_amount` is added to `revenue`, the sum
of `calculateRevenue(item, product) − purchase_price × quantity` over the
items with known SKUs is added to `profit`, and every per-SKU counter grows
by the quantity those items contribute (from `0` when absent); no other
stat changes, and records are folded in input order.  -/
theorem c3_aggregation_step (cr : Item → Product → JSNum) (ps : List Product)
    (r : PurchaseRecord) (pre post : List SellerStat) (s : SellerStat)
    (hs : s.id = r.seller_id) (hpost : ∀ t ∈ post, t.id ≠ r.seller_id) :
    ∃ s', processRecord cr ps (pre ++ s :: post) r = pre ++ s' :: post ∧
      s'.id = s.id ∧ s'.name = s.name ∧
      s'.sales_count = s.sales_count + 1 ∧
      s'.revenue = jadd s.revenue r.total_amount ∧
      s'.profit = jadd s.profit (jsum (itemProfits cr ps r.items)) ∧
      (∀ k, qtyOf s'.products_sold k =
        qtyOf s.products_sold k + itemQtySum ps r.items k) ∧
      (∀ recs, aggregate cr ps (pre ++ s :: post) (r :: recs) =
        aggregate cr ps (processRecord cr ps (pre ++ s :: post) r) recs) := by
  set base : SellerStat :=
    { s with sales_count := s.sales_count + 1, revenue := jadd s.revenue r.total_amount }
    with hbase
  refine ⟨r.items.foldl (processItem cr ps) base, ?_, ?_, ?_, ?_, ?_, ?_, ?_, ?_⟩
  · unfold processRecord
    exact updateLastMatching_split r.seller_id _ pre post s hs hpost
  · rw [(foldl_processItem_fields cr ps r.items base).1, hbase]
  · rw [(foldl_processItem_fields cr ps r.items base).2.1, hbase]
  · rw [(foldl_processItem_fields cr ps r.items base).2.2.1, hbase]
  · rw [(foldl_processItem_fields cr ps r.items base).2.2.2, hbase]
  · rw [foldl_processItem_profit, hbase]
  · intro k
    rw [foldl_processItem_qty, hbase]
  · intro recs
    exact aggregate_cons cr ps (pre ++ s :: post) r recs

/-- C3, witness.  The step theorem applied to a single zeroed stat for
seller `"s1"` and the one-item record of the spec's scenario.  -/
theorem c3_aggregation_step_witness :
    ∃ s', processRecord calculateSimpleRevenue [⟨"p1", some 10⟩]
        ([] ++ ⟨"s1", "Ann Lee", some 0, some 0, 0, []⟩ :: [])
        ⟨"s1", some 30, [⟨"p1", 2, 0, some 15⟩]⟩ =
        [] ++ s' :: [] ∧
      s'.id = "s1" ∧ s'.name = "Ann Lee" ∧
      s'.sales_count = 0 + 1 ∧
      s'.revenue = jadd (some 0) (some 30) ∧
      s'.profit = jadd (some 0)
        (jsum (itemProfits calculateSimpleRevenue [⟨"p1", some 10⟩]
          [⟨"p1", 2, 0, some 15⟩])) ∧
      (∀ k, qtyOf s'.products_sold k =
        qtyOf ([] : List (String × ℚ)) k +
          itemQtySum [⟨"p1", some 10⟩] [⟨"p1", 2, 0, some 15⟩] k) ∧
      (∀ recs, aggregate calculateSimpleRevenue [⟨"p1", some 10⟩]
          ([] ++ ⟨"s1", "Ann Lee", some 0, some 0, 0, []⟩ :: []) (⟨"s1", some 30, [⟨"p1", 2, 0, some 15⟩]⟩ :: recs) =
        aggregate calculateSimpleRevenue [⟨"p1", some 10⟩]
          (processRecord calculateSimpleRevenue [⟨"p1", some 10⟩]
            ([] ++ ⟨"s1", "Ann Lee", some 0, some 0, 0, []⟩ :: [])
            ⟨"s1", some 30, [⟨"p1", 2, 0, some 15⟩]⟩) recs) :=
  c3_aggregation_step calculateSimpleRevenue [⟨"p1", some 10⟩]
    ⟨"s1", some 30, [⟨"p1", 2, 0, some 15⟩]⟩ [] []
    ⟨"s1", "Ann Lee", some 0, some 0, 0, []⟩ rfl (by simp)

/-! ## Stable-sort lemmas

General facts about `insertStable`/`stableSort`, used by the ordering,
stability and permutation claims about the two `sort` calls.  -/

theorem insertStable_perm (prec : α → α → Bool) (x : α) (l : List α) :
    insertStable prec x l ~ x :: l := by
  induction l with
  | nil => exact List.Perm.refl _
  | cons y ys ih =>
    by_cases h : prec x y
    · simp [insertStable, h]
    · simp only [insertStable, h, if_false]
      exact (ih.cons y).trans (List.Perm.swap x y ys)

theorem stableSort_append_singleton (prec : α → α → Bool) (l : List α) (x : α) :
    stableSort prec (l ++ [x]) = insertStable prec x (stableSort prec l) := by
  simp [stableSort, List.foldl_append]

theorem stableSort_perm (prec : α → α → Bool) (l : List α) : stableSort prec l ~ l := by
  induction l using List.reverseRecOn with
  | nil => exact List.Perm.refl _
  | append_singleton l x ih =>
    rw [stableSort_append_singleton]
    exact ((insertStable_perm prec x _).trans (ih.cons x)).trans
      (List.perm_append_singleton x l).symm

theorem mem_insertStable (prec : α → α → Bool) {x y : α} {l : List α} :
    y ∈ insertStable prec x l ↔ y = x ∨ y ∈ l := by
  rw [(insertStable_perm prec x l).mem_iff, List.mem_cons]

theorem insertStable_pairwise (prec : α → α → Bool)
    (hasym : ∀ a b, prec a b = true → prec b a = false)
    (htrans : ∀ w x y, prec x y = true → prec w y = false → prec w x = false)
    {x : α} {l : List α} (hl : l.Pairwise (fun a b => prec b a = false)) :
    (insertStable prec x l).Pairwise (fun a b => prec b a = false) := by
  induction l with
  | nil => simp [insertStable]
  | cons y ys ih =>
    rcases List.pairwise_cons.mp hl with ⟨hy, hys⟩
    cases hxy : prec x y with
    | true =>
      simp only [insertStable, hxy, if_true]
      refine List.pairwise_cons.mpr ⟨?_, hl⟩
      intro z hz
      rcases List.mem_cons.mp hz with hz | hz
      · subst hz; exact hasym x z hxy
      · exact htrans z x y hxy (hy z hz)
    | false =>
      simp only [insertStable, hxy, Bool.false_eq_true, if_false]
      refine List.pairwise_cons.mpr ⟨?_, ih hys⟩
      intro z hz
      rcases (mem_insertStable prec).mp hz with hz | hz
      · subst hz; exact hxy
      · exact hy z hz

theorem stableSort_pairwise (prec : α → α → Bool)
    (hasym : ∀ a b, prec a b = true → prec b a = false)
    (htrans : ∀ w x y, prec x y = true → prec w y = false → prec w x = false)
    (l : List α) :
    (stableSort prec l).Pairwise (fun a b => prec b a = false) := by
  induction l using List.reverseRecOn with
  | nil => simp [stableSort]
  | append_singleton l x ih =>
    rw [stableSort_append_singleton]
    exact insertStable_pairwise prec hasym htrans ih

theorem insertStable_eq_append (prec : α → α → Bool) (x : α) (l : List α) :
    ∃ l₁ l₂, l = l₁ ++ l₂ ∧ insertStable prec x l = l₁ ++ x :: l₂ := by
  induction l with
  | nil => exact ⟨[], [], rfl, rfl⟩
  | cons y ys ih =>
    by_cases h : prec x y
    · exact ⟨[], y :: ys, rfl, by simp [insertStable, h]⟩
    · obtain ⟨l₁, l₂, h1, h2⟩ := ih
      exact ⟨y :: l₁, l₂, by simp [h1], by simp [insertStable, h, h2]⟩

theorem sublist_insertStable (prec : α → α → Bool) (x : α) {t l : List α}
    (h : t <+ l) : t <+ insertStable prec x l := by
  obtain ⟨l₁, l₂, h1, h2⟩ := insertStable_eq_append prec x l
  rw [h2]
  refine h.trans ?_
  rw [h1]
  exact List.Sublist.append_left (List.sublist_cons_self x l₂) l₁

/-- Function `keyPrec key` is the strict precedence induced by the comparator
`(a, b) => key(b) - key(a)` on elements with finite keys: sort descending
by `key`.  -/
def keyPrec (key : α → ℚ) (a b : α) : Bool :=
  decide (key b < key a)

theorem keyPrec_asym (key : α → ℚ) :
    ∀ a b, keyPrec key a b = true → keyPrec key b a = false := by
  intro a b h
  simp only [keyPrec, decide_eq_true_eq] at h
  simp only [keyPrec, decide_eq_false_iff_not]
  exact lt_asymm h

theorem keyPrec_trans (key : α → ℚ) :
    ∀ w x y, keyPrec key x y = true → keyPrec key w y = false → keyPrec key w x = false := by
  intro w x y hxy hwy
  simp only [keyPrec, decide_eq_true_eq] at hxy
  simp only [keyPrec, decide_eq_false_iff_not, not_lt] at hwy ⊢
  exact le_of_lt (lt_of_le_of_lt hwy hxy)

theorem key_le_of_mem_sorted (key : α → ℚ) {y : α} {ys : List α} {a : α}
    (h : (y :: ys).Pairwise (fun a b => keyPrec key b a = false))
    (ha : a ∈ y :: ys) : key a ≤ key y := by
  rcases List.mem_cons.mp ha with ha | ha
  · subst ha; exact le_refl _
  · have := (List.pairwise_cons.mp h).1 a ha
    simpa [keyPrec, not_lt] using this

theorem pair_sublist_insertStable (key : α → ℚ) {x a : α} {l : List α}
    (hl : l.Pairwise (fun a b => keyPrec key b a = false))
    (ha : a ∈ l) (hxa : key x ≤ key a) :
    [a, x] <+ insertStable (keyPrec key) x l := by
  induction l with
  | nil => cases ha
  | cons y ys ih =>
    cases hxy : keyPrec key x y with
    | true =>
      exfalso
      have h1 : key y < key x := by simpa [keyPrec] using hxy
      have h2 : key a ≤ key y := key_le_of_mem_sorted key hl ha
      exact absurd (lt_of_le_of_lt (le_trans hxa h2) h1) (lt_irrefl _)
    | false =>
      simp only [insertStable, hxy, Bool.false_eq_true, if_false]
      rcases List.mem_cons.mp ha with ha | ha
      · subst ha
        exact List.Sublist.cons₂ a (List.singleton_sublist.mpr
          ((mem_insertStable (keyPrec key)).mpr (Or.inl rfl)))
      · exact List.Sublist.cons y (ih (List.Pairwise.of_cons hl) ha)

theorem pair_sublist_stableSort (key : α → ℚ) {a b : α} {l : List α}
    (h : [a, b] <+ l) (hk : ¬key a < key b) :
    [a, b] <+ stableSort (keyPrec key) l := by
  induction l using List.reverseRecOn with
  | nil => simp at h
  | append_singleton l x ih =>
    rw [stableSort_append_singleton]
    obtain ⟨t₁, t₂, ht, h₁, h₂⟩ := List.sublist_append_iff.mp h
    rcases t₁ with _ | ⟨c, t₁⟩
    · simp only [List.nil_append] at ht
      subst ht
      have := h₂.length_le
      simp at this
    · rcases t₁ with _ | ⟨d, t₁⟩
      · simp only [List.cons_append, List.nil_append, List.cons.injEq] at ht
        obtain ⟨hac, hbt⟩ := ht
        rw [← hac] at h₁
        rw [← hbt] at h₂
        have hbx : b = x := by
          have := List.singleton_sublist.mp h₂
          simpa using this
        subst hbx
        have hmem : a ∈ stableSort (keyPrec key) l :=
          (stableSort_perm (keyPrec key) l).mem_iff.mpr (List.singleton_sublist.mp h₁)
        exact pair_sublist_insertStable key
          (stableSort_pairwise (keyPrec key) (keyPrec_asym key) (keyPrec_trans key) l)
          hmem (le_of_not_lt hk)
      · simp only [List.cons_append, List.cons.injEq] at ht
        obtain ⟨hac, hbd, hrest⟩ := ht
        obtain ⟨ht1, ht2⟩ := List.append_eq_nil.mp hrest.symm
        rw [← hac, ← hbd, ht1] at h₁
        exact sublist_insertStable (keyPrec key) x (ih h₁)

theorem sublist_take_of_nodup {l : List α} (hnd : l.Nodup) {a b : α} {n : ℕ}
    (h : [a, b] <+ l) (hb : b ∈ l.take n) : [a, b] <+ l.take n := by
  induction l generalizing n with
  | nil => simp at h
  | cons x l' ih =>
    cases n with
    | zero => simp at hb
    | succ m =>
      simp only [List.take_succ_cons] at hb ⊢
      rcases List.pairwise_cons.mp hnd with ⟨hx, hnd'⟩
      cases h with
      | cons _ h' =>
        rcases List.mem_cons.mp hb with hbx | hbm
        · exfalso
          have hbl : b ∈ l' := h'.subset (by simp)
          exact hx b hbl hbx.symm
        · exact List.Sublist.cons x (ih hnd' h' hbm)

      | cons₂ _ h' =>
        rcases List.mem_cons.mp hb with hbx | hbm
        · exfalso
          have hbl : b ∈ l' := List.singleton_sublist.mp h'
          exact hx b hbl hbx.symm
        · exact List.Sublist.cons₂ _ (List.singleton_sublist.mpr hbm)

/-! ## Ranking and formatting lemmas -/

theorem profitPrec_asym : ∀ a b, profitPrec a b = true → profitPrec b a = false := by
  intro a b h
  unfold profitPrec at h ⊢
  cases ha : a.profit with
  | none => rw [ha] at h; cases hb : b.profit <;> simp at h
  | some pa =>
    cases hb : b.profit with
    | none => simp
    | some pb =>
      rw [ha, hb] at h
      simp only [decide_eq_true_eq] at h
      simp only [decide_eq_false_iff_not]
      exact lt_asymm h

theorem profitPrec_trans :
    ∀ w x y, profitPrec x y = true → profitPrec w y = false → profitPrec w x = false := by
  intro w x y hxy hwy
  unfold profitPrec at hxy hwy ⊢
  cases hx : x.profit with
  | none => rw [hx] at hxy; cases y.profit <;> simp at hxy
  | some px =>
    cases hy : y.profit with
    | none => rw [hx, hy] at hxy; simp at hxy
    | some py =>
      rw [hx, hy] at hxy
      simp only [decide_eq_true_eq] at hxy
      cases hw : w.profit with
      | none => simp
      | some pw =>
        rw [hw, hy] at hwy
        simp only [decide_eq_false_iff_not, not_lt] at hwy
        simp only [decide_eq_false_iff_not, not_lt]
        exact le_of_lt (lt_of_le_of_lt hwy hxy)

theorem assignRank_map_stat (cb : ℕ → ℕ → SellerStat → JSNum) (total : ℕ)
    (i : ℕ) (l : List SellerStat) :
    (assignRank cb total i l).map (fun r => r.stat) = l := by
  induction l generalizing i with
  | nil => rfl
  | cons s rest ih => simp [assignRank, ih]

theorem mem_assignRank (cb : ℕ → ℕ → SellerStat → JSNum) (total : ℕ)
    {i : ℕ} {l : List SellerStat} {r : RankedStat} (hr : r ∈ assignRank cb total i l) :
    ∃ s ∈ l, ∃ j, r = ⟨s, cb j total s, topProducts s⟩ := by
  induction l generalizing i with
  | nil => cases hr
  | cons s rest ih =>
    rcases List.mem_cons.mp hr with h | h
    · exact ⟨s, List.mem_cons_self _ _, i, h⟩
    · obtain ⟨t, ht, j, hj⟩ := ih h
      exact ⟨t, List.mem_cons_of_mem _ ht, j, hj⟩

theorem assignRank_length (cb : ℕ → ℕ → SellerStat → JSNum) (total : ℕ)
    (i : ℕ) (l : List SellerStat) : (assignRank cb total i l).length = l.length := by
  have h := congrArg List.length (assignRank_map_stat cb total i l)
  simpa using h

theorem formatRow_seller_id (r : RankedStat) : (formatRow r).seller_id = r.stat.id := by
  unfold formatRow
  by_cases h : r.stat.id = ""
  · simp [h]
  · simp [h]

theorem formatRow_profit (r : RankedStat) :
    (formatRow r).profit = nanGuardRound r.stat.profit := rfl

theorem toFixed2_mono {q q' : ℚ} (h : q ≤ q') : toFixed2 q ≤ toFixed2 q' := by
  unfold toFixed2
  have h1 : round (q * 100) ≤ round (q' * 100) := by
    rw [round_eq, round_eq]
    exact Int.floor_mono (by linarith)
  have h2 : ((round (q * 100) : ℤ) : ℚ) ≤ ((round (q' * 100) : ℤ) : ℚ) := by
    exact_mod_cast h1
  have h100 : (0 : ℚ) < 100 := by norm_num
  exact (div_le_div_iff_of_pos_right h100).mpr h2

/-! ## Claim C6 -/

/-- C6, counterexample.  When a seller's accumulated profit is `NaN`
(here: the first seller's item has a `NaN` `sale_price`), the comparator
returns `NaN`, which the sort treats as a tie (ES `SortCompare`), so the
stable sort leaves the `NaN` seller in front; the formatter then maps the
`NaN` profit to `0`, and the output rows carry profits `[0, 10]` — not
descending.  -/
theorem c6_sorted_cex :
    analyzeSalesData
        (some ⟨some [⟨"s1", "Ann", "Lee"⟩, ⟨"s2", "Bob", "Orr"⟩],
               some [⟨"p1", some 10⟩],
               some [⟨"s1", some 0, [⟨"p1", 1, 0, none⟩]⟩,
                     ⟨"s2", some 20, [⟨"p1", 1, 0, some 20⟩]⟩]⟩)
        ⟨some calculateSimpleRevenue, some calculateBonusByProfit⟩ =
      .ok [⟨"s1", "Ann Lee", 0, 0, 1, [⟨"p1", 1⟩], 0⟩,
           ⟨"s2", "Bob Orr", 20, 10, 1, [⟨"p1", 1⟩], 1⟩] ∧
    ¬ ([⟨"s1", "Ann Lee", 0, 0, 1, [⟨"p1", 1⟩], 0⟩,
        ⟨"s2", "Bob Orr", 20, 10, 1, [⟨"p1", 1⟩], 1⟩] :
        List ReportRow).Chain' (fun r₁ r₂ => r₂.profit ≤ r₁.profit) := by
  constructor
  · norm_num [analyzeSalesData, runPipeline, aggregate, makeSellerStats,
      processRecord, processItem, updateLastMatching, findProduct, bumpSku,
      stableSort, insertStable, profitPrec, assignRank, topProducts, sellerEntries,
      quantityPrec, formatRow, nanGuardRound, toFixed2, jadd, jsub, jmul,
      calculateSimpleRevenue, calculateBonusByProfit]
    decide
  · intro h
    have := List.chain'_cons.mp h
    norm_num at this

/-- C6, amended.  Whenever no seller's accumulated profit is `NaN` —
which is the only case in which the comparator is consistent and can
promise an order at all — the output is sorted by descending profit, with
the formatter preserving the rank order of the sort.  -/
theorem c6_sorted_by_profit (ss : List Seller) (ps : List Product)
    (rs : List PurchaseRecord) (cr : Item → Product → JSNum)
    (cb : ℕ → ℕ → SellerStat → JSNum)
    (hfin : ∀ s ∈ aggregate cr ps (makeSellerStats ss) rs, s.profit ≠ none) :
    (runPipeline ss ps rs cr cb).Chain' (fun r₁ r₂ => r₂.profit ≤ r₁.profit) := by
  have hrun : runPipeline ss ps rs cr cb =
      (assignRank cb
        (stableSort profitPrec (aggregate cr ps (makeSellerStats ss) rs)).length 0
        (stableSort profitPrec (aggregate cr ps (makeSellerStats ss) rs))).map
        formatRow := rfl
  rw [hrun, List.chain'_map]
  have hpw := stableSort_pairwise profitPrec profitPrec_asym profitPrec_trans
    (aggregate cr ps (makeSellerStats ss) rs)
  have hfin' : ∀ s ∈ stableSort profitPrec (aggregate cr ps (makeSellerStats ss) rs),
      s.profit ≠ none := fun s hs =>
    hfin s ((stableSort_perm profitPrec _).mem_iff.mp hs)
  have hpw2 : (stableSort profitPrec (aggregate cr ps (makeSellerStats ss) rs)).Pairwise
      (fun a b => nanGuardRound b.profit ≤ nanGuardRound a.profit) := by
    refine hpw.imp_of_mem ?_
    intro a b ha hb hab
    obtain ⟨pa, hpa⟩ := Option.ne_none_iff_exists'.mp (hfin' a ha)
    obtain ⟨pb, hpb⟩ := Option.ne_none_iff_exists'.mp (hfin' b hb)
    have hlt : ¬pa < pb := by
      unfold profitPrec at hab
      rw [hpb, hpa] at hab
      simpa using hab
    rw [hpa, hpb]
    show toFixed2 pb ≤ toFixed2 pa
    exact toFixed2_mono (not_lt.mp hlt)
  have hchain := hpw2.chain'
  rw [← assignRank_map_stat cb
    (stableSort profitPrec (aggregate cr ps (makeSellerStats ss) rs)).length 0
    (stableSort profitPrec (aggregate cr ps (makeSellerStats ss) rs)),
    List.chain'_map] at hchain
  exact hchain

/-- C6, witness.  A two-seller dataset with finite profits 5 and 20: the
hypothesis holds, so the output rows are descending by profit.  -/
theorem c6_sorted_by_profit_witness :
    (runPipeline [⟨"s1", "Ann", "Lee"⟩, ⟨"s2", "Bob", "Orr"⟩] [⟨"p1", some 10⟩]
        [⟨"s1", some 15, [⟨"p1", 1, 0, some 15⟩]⟩,
         ⟨"s2", some 40, [⟨"p1", 2, 0, some 20⟩]⟩]
        calculateSimpleRevenue calculateBonusByProfit).Chain'
      (fun r₁ r₂ => r₂.profit ≤ r₁.profit) := by
  apply c6_sorted_by_profit
  intro s hs
  norm_num [aggregate, makeSellerStats, processRecord, processItem,
    updateLastMatching, findProduct, bumpSku, jadd, jsub, jmul,
    calculateSimpleRevenue] at hs
  rcases hs with h | h <;> rw [h] <;> simp

/-! ## Claim C7 -/

theorem bumpSku_map_fst (sku : String) (q : ℚ) (l : List (String × ℚ)) :
    (bumpSku sku q l).map Prod.fst =
      if sku ∈ l.map Prod.fst then l.map Prod.fst else l.map Prod.fst ++ [sku] := by
  induction l with
  | nil => simp [bumpSku]
  | cons e rest ih =>
    obtain ⟨k, v⟩ := e
    by_cases hk : k = sku
    · subst hk
      simp [bumpSku]
    · have hb : (k == sku) = false := by
        simp only [beq_eq_false_iff_ne, ne_eq]
        exact hk
      have hsk : ¬sku = k := fun h => hk h.symm
      by_cases hm : sku ∈ rest.map Prod.fst
      · simp [bumpSku, hb, ih, hm, hsk]
      · simp [bumpSku, hb, ih, hm, hsk]

theorem bumpSku_nodup (sku : String) (q : ℚ) (l : List (String × ℚ))
    (h : (l.map Prod.fst).Nodup) : ((bumpSku sku q l).map Prod.fst).Nodup := by
  rw [bumpSku_map_fst]
  by_cases hm : sku ∈ l.map Prod.fst
  · simpa [hm] using h
  · simp only [hm, if_false]
    simp [List.nodup_append, h, hm]

theorem processItem_nodup (cr : Item → Product → JSNum) (ps : List Product)
    (s : SellerStat) (it : Item)
    (h : (s.products_sold.map Prod.fst).Nodup) :
    ((processItem cr ps s it).products_sold.map Prod.fst).Nodup := by
  unfold processItem
  cases findProduct ps it.sku with
  | none => exact h
  | some p => exact bumpSku_nodup it.sku it.quantity s.products_sold h

theorem foldl_processItem_nodup (cr : Item → Product → JSNum) (ps : List Product)
    (items : List Item) (s : SellerStat)
    (h : (s.products_sold.map Prod.fst).Nodup) :
    ((items.foldl (processItem cr ps) s).products_sold.map Prod.fst).Nodup := by
  induction items generalizing s with
  | nil => exact h
  | cons it rest ih =>
    rw [List.foldl_cons]
    exact ih _ (processItem_nodup cr ps s it h)

theorem updateLastMatching_forall (P : SellerStat → Prop) (id : String)
    (f : SellerStat → SellerStat) (hf : ∀ s, P s → P (f s)) :
    ∀ l : List SellerStat, (∀ s ∈ l, P s) → ∀ s ∈ updateLastMatching id f l, P s := by
  intro l
  induction l with
  | nil => intro _ s hs; cases hs
  | cons t rest ih =>
    intro hall s hs
    unfold updateLastMatching at hs
    by_cases hrest : rest.any (fun u => u.id == id)
    · rw [if_pos hrest] at hs
      rcases List.mem_cons.mp hs with h | h
      · exact h ▸ hall t (List.mem_cons_self _ _)
      · exact ih (fun u hu => hall u (List.mem_cons_of_mem _ hu)) s h
    · rw [if_neg hrest] at hs
      by_cases ht : t.id == id
      · rw [if_pos ht] at hs
        rcases List.mem_cons.mp hs with h | h
        · exact h ▸ hf t (hall t (List.mem_cons_self _ _))
        · exact hall s (List.mem_cons_of_mem _ h)
      · rw [if_neg ht] at hs
        exact hall s hs

theorem aggregate_nodup (cr : Item → Product → JSNum) (ps : List Product)
    (ss : List Seller) (rs : List PurchaseRecord) :
    ∀ s ∈ aggregate cr ps (makeSellerStats ss) rs,
      (s.products_sold.map Prod.fst).Nodup := by
  have hstep : ∀ (stats : List SellerStat) (r : PurchaseRecord),
      (∀ s ∈ stats, (s.products_sold.map Prod.fst).Nodup) →
      ∀ s ∈ processRecord cr ps stats r, (s.products_sold.map Prod.fst).Nodup := by
    intro stats r hall
    unfold processRecord
    refine updateLastMatching_forall _ _ _ ?_ stats hall
    intro s hs
    exact foldl_processItem_nodup cr ps r.items _ hs
  have hbase : ∀ s ∈ makeSellerStats ss, (s.products_sold.map Prod.fst).Nodup := by
    intro s hs
    obtain ⟨seller, _, hmk⟩ := List.mem_map.mp hs
    rw [← hmk]
    simp
  suffices h : ∀ (recs : List PurchaseRecord) (stats : List SellerStat),
      (∀ s ∈ stats, (s.products_sold.map Prod.fst).Nodup) →
      ∀ s ∈ aggregate cr ps stats recs, (s.products_sold.map Prod.fst).Nodup by
    exact h rs (makeSellerStats ss) hbase
  intro recs
  induction recs with
  | nil => intro stats hall; exact hall
  | cons r rest ih =>
    intro stats hall
    rw [aggregate_cons]
    exact ih _ (hstep stats r hall)

theorem sellerEntries_nodup (s : SellerStat)
    (h : (s.products_sold.map Prod.fst).Nodup) : (sellerEntries s).Nodup := by
  unfold sellerEntries
  have h1 : s.products_sold.Nodup := List.Nodup.of_map _ h
  refine h1.map ?_
  intro a b hab
  obtain ⟨a1, a2⟩ := a
  obtain ⟨b1, b2⟩ := b
  simp only [TopProduct.mk.injEq] at hab
  simp [hab.1, hab.2]

/-- C7.  Every output row's `top_products` comes from the row's own
sorted stat: it has at most 10 entries, is sorted by descending quantity,
and whenever two equal-quantity entries stand in `Object.entries` order
(the order the SKUs were first accumulated) and the later one made the
10-entry cut, they appear in the same relative order in `top_products`.  -/
theorem c7_top_products (ss : List Seller) (ps : List Product)
    (rs : List PurchaseRecord) (cr : Item → Product → JSNum)
    (cb : ℕ → ℕ → SellerStat → JSNum) (row : ReportRow)
    (hrow : row ∈ runPipeline ss ps rs cr cb) :
    ∃ s, s ∈ stableSort profitPrec (aggregate cr ps (makeSellerStats ss) rs) ∧
      row.top_products = topProducts s ∧
      row.top_products.length ≤ 10 ∧
      row.top_products.Chain' (fun a b => b.quantity ≤ a.quantity) ∧
      (∀ a b, [a, b] <+ sellerEntries s → a.quantity = b.quantity →
        b ∈ row.top_products → [a, b] <+ row.top_products) := by
  have hrun : runPipeline ss ps rs cr cb =
      (assignRank cb
        (stableSort profitPrec (aggregate cr ps (makeSellerStats ss) rs)).length 0
        (stableSort profitPrec (aggregate cr ps (makeSellerStats ss) rs))).map
        formatRow := rfl
  rw [hrun] at hrow
  obtain ⟨r, hr, hfr⟩ := List.mem_map.mp hrow
  obtain ⟨s, hsmem, j, hj⟩ := mem_assignRank cb _ hr
  have htp : row.top_products = topProducts s := by
    rw [← hfr, hj]
    rfl
  have hq : quantityPrec = keyPrec (fun t : TopProduct => t.quantity) := rfl
  refine ⟨s, hsmem, htp, ?_, ?_, ?_⟩
  · rw [htp]
    unfold topProducts
    rw [List.length_take]
    exact min_le_left _ _
  · rw [htp]
    unfold topProducts
    rw [hq]
    have hpw := stableSort_pairwise (keyPrec (fun t : TopProduct => t.quantity))
      (keyPrec_asym _) (keyPrec_trans _) (sellerEntries s)
    have htake := List.take_prefix 10 (stableSort (keyPrec (fun t : TopProduct => t.quantity)) (sellerEntries s))
    have hch := List.Chain'.prefix (List.Pairwise.chain' hpw) htake
    refine hch.imp ?_
    intro a b h
    simp only [keyPrec, decide_eq_false_iff_not, not_lt] at h
    exact h
  · intro a b hab heq hbmem
    rw [htp] at hbmem ⊢
    unfold topProducts at hbmem ⊢
    rw [hq] at hbmem ⊢
    have hsort : [a, b] <+ stableSort (keyPrec (fun t : TopProduct => t.quantity))
        (sellerEntries s) :=
      pair_sublist_stableSort _ hab (by rw [heq]; exact lt_irrefl _)
    have hnd0 := aggregate_nodup cr ps ss rs s
      ((stableSort_perm profitPrec _).mem_iff.mp hsmem)
    have hnd := sellerEntries_nodup s hnd0
    have hndsort : (stableSort (keyPrec (fun t : TopProduct => t.quantity))
        (sellerEntries s)).Nodup :=
      ((stableSort_perm _ _).nodup_iff).mpr hnd
    exact sublist_take_of_nodup hndsort hsort hbmem

/-- C7, witness.  The statement instantiated on the single row of the
one-seller scenario.  -/
theorem c7_top_products_witness :
    ∃ s, s ∈ stableSort profitPrec
        (aggregate calculateSimpleRevenue [⟨"p1", some 10⟩]
          (makeSellerStats [⟨"s1", "Ann", "Lee"⟩])
          [⟨"s1", some 30, [⟨"p1", 2, 0, some 15⟩]⟩]) ∧
      (⟨"s1", "Ann Lee", 30, 10, 1, [⟨"p1", 2⟩], 3 / 2⟩ : ReportRow).top_products =
        topProducts s ∧
      (⟨"s1", "Ann Lee", 30, 10, 1, [⟨"p1", 2⟩], 3 / 2⟩ : ReportRow).top_products.length ≤ 10 ∧
      (⟨"s1", "Ann Lee", 30, 10, 1, [⟨"p1", 2⟩], 3 / 2⟩ :
          ReportRow).top_products.Chain' (fun a b => b.quantity ≤ a.quantity) ∧
      (∀ a b, [a, b] <+ sellerEntries s → a.quantity = b.quantity →
        b ∈ (⟨"s1", "Ann Lee", 30, 10, 1, [⟨"p1", 2⟩], 3 / 2⟩ : ReportRow).top_products →
        [a, b] <+ (⟨"s1", "Ann Lee", 30, 10, 1, [⟨"p1", 2⟩], 3 / 2⟩ :
          ReportRow).top_products) := by
  apply c7_top_products [⟨"s1", "Ann", "Lee"⟩] [⟨"p1", some 10⟩]
    [⟨"s1", some 30, [⟨"p1", 2, 0, some 15⟩]⟩]
    calculateSimpleRevenue calculateBonusByProfit
  norm_num [runPipeline, aggregate, makeSellerStats, processRecord, processItem,
    updateLastMatching, findProduct, bumpSku, stableSort, insertStable, profitPrec,
    assignRank, topProducts, sellerEntries, quantityPrec, formatRow, nanGuardRound,
    toFixed2, jadd, jsub, jmul, calculateSimpleRevenue, calculateBonusByProfit]
  decide

/-! ## Claim C8 -/

theorem nanGuardRound_cases (v : JSNum) :
    (v = none → nanGuardRound v = 0) ∧
      (∀ q, v = some q → nanGuardRound v = toFixed2 q) ∧
      ∃ n : ℤ, nanGuardRound v = (n : ℚ) / 100 := by
  cases v with
  | none =>
    refine ⟨fun _ => rfl, fun q h => Option.noConfusion h, ⟨0, ?_⟩⟩
    simp [nanGuardRound]
  | some q =>
    refine ⟨fun h => Option.noConfusion h, fun q' h => ?_, ⟨round (q * 100), rfl⟩⟩
    have hq : q = q' := Option.some.inj h
    subst hq
    rfl

/-- C8.  Each output row is the formatter's image of its ranked stat:
`revenue`, `profit` and `bonus` become `0` when the accumulated value is
`NaN`, otherwise the value rounded to 2 decimal places; in either case the
result is a finite rational with at most 2 decimal places (an integer
number of hundredths).  -/
theorem c8_numeric_normalization (ss : List Seller) (ps : List Product)
    (rs : List PurchaseRecord) (cr : Item → Product → JSNum)
    (cb : ℕ → ℕ → SellerStat → JSNum) (row : ReportRow)
    (hrow : row ∈ runPipeline ss ps rs cr cb) :
    ∃ r, r ∈ assignRank cb
        (stableSort profitPrec (aggregate cr ps (makeSellerStats ss) rs)).length 0
        (stableSort profitPrec (aggregate cr ps (makeSellerStats ss) rs)) ∧
      row = formatRow r ∧
      (r.stat.revenue = none → row.revenue = 0) ∧
      (∀ q, r.stat.revenue = some q → row.revenue = toFixed2 q) ∧
      (r.stat.profit = none → row.profit = 0) ∧
      (∀ q, r.stat.profit = some q → row.profit = toFixed2 q) ∧
      (r.bonus = none → row.bonus = 0) ∧
      (∀ q, r.bonus = some q → row.bonus = toFixed2 q) ∧
      (∃ n : ℤ, row.revenue = (n : ℚ) / 100) ∧
      (∃ n : ℤ, row.profit = (n : ℚ) / 100) ∧
      (∃ n : ℤ, row.bonus = (n : ℚ) / 100) := by
  have hrun : runPipeline ss ps rs cr cb =
      (assignRank cb
        (stableSort profitPrec (aggregate cr ps (makeSellerStats ss) rs)).length 0
        (stableSort profitPrec (aggregate cr ps (makeSellerStats ss) rs))).map
        formatRow := rfl
  rw [hrun] at hrow
  obtain ⟨r, hr, hfr⟩ := List.mem_map.mp hrow
  subst hfr
  obtain ⟨hrev1, hrev2, hrev3⟩ := nanGuardRound_cases r.stat.revenue
  obtain ⟨hpro1, hpro2, hpro3⟩ := nanGuardRound_cases r.stat.profit
  obtain ⟨hbon1, hbon2, hbon3⟩ := nanGuardRound_cases r.bonus
  exact ⟨r, hr, rfl, hrev1, hrev2, hpro1, hpro2, hbon1, hbon2, hrev3, hpro3, hbon3⟩

/-- C8, witness.  The statement instantiated on the single row of the
one-seller scenario (revenue 30, profit 10, bonus 1.5).  -/
theorem c8_numeric_normalization_witness :
    ∃ r, r ∈ assignRank calculateBonusByProfit
        (stableSort profitPrec (aggregate calculateSimpleRevenue [⟨"p1", some 10⟩]
          (makeSellerStats [⟨"s1", "Ann", "Lee"⟩])
          [⟨"s1", some 30, [⟨"p1", 2, 0, some 15⟩]⟩])).length 0
        (stableSort profitPrec (aggregate calculateSimpleRevenue [⟨"p1", some 10⟩]
          (makeSellerStats [⟨"s1", "Ann", "Lee"⟩])
          [⟨"s1", some 30, [⟨"p1", 2, 0, some 15⟩]⟩])) ∧
      (⟨"s1", "Ann Lee", 30, 10, 1, [⟨"p1", 2⟩], 3 / 2⟩ : ReportRow) = formatRow r ∧
      (r.stat.revenue = none →
        (⟨"s1", "Ann Lee", 30, 10, 1, [⟨"p1", 2⟩], 3 / 2⟩ : ReportRow).revenue = 0) ∧
      (∀ q, r.stat.revenue = some q →
        (⟨"s1", "Ann Lee", 30, 10, 1, [⟨"p1", 2⟩], 3 / 2⟩ : ReportRow).revenue = toFixed2 q) ∧
      (r.stat.profit = none →
        (⟨"s1", "Ann Lee", 30, 10, 1, [⟨"p1", 2⟩], 3 / 2⟩ : ReportRow).profit = 0) ∧
      (∀ q, r.stat.profit = some q →
        (⟨"s1", "Ann Lee", 30, 10, 1, [⟨"p1", 2⟩], 3 / 2⟩ : ReportRow).profit = toFixed2 q) ∧
      (r.bonus = none →
        (⟨"s1", "Ann Lee", 30, 10, 1, [⟨"p1", 2⟩], 3 / 2⟩ : ReportRow).bonus = 0) ∧
      (∀ q, r.bonus = some q →
        (⟨"s1", "Ann Lee", 30, 10, 1, [⟨"p1", 2⟩], 3 / 2⟩ : ReportRow).bonus = toFixed2 q) ∧
      (∃ n : ℤ, (⟨"s1", "Ann Lee", 30, 10, 1, [⟨"p1", 2⟩], 3 / 2⟩ : ReportRow).revenue =
        (n : ℚ) / 100) ∧
      (∃ n : ℤ, (⟨"s1", "Ann Lee", 30, 10, 1, [⟨"p1", 2⟩], 3 / 2⟩ : ReportRow).profit =
        (n : ℚ) / 100) ∧
      (∃ n : ℤ, (⟨"s1", "Ann Lee", 30, 10, 1, [⟨"p1", 2⟩], 3 / 2⟩ : ReportRow).bonus =
        (n : ℚ) / 100) := by
  apply c8_numeric_normalization [⟨"s1", "Ann", "Lee"⟩] [⟨"p1", some 10⟩]
    [⟨"s1", some 30, [⟨"p1", 2, 0, some 15⟩]⟩]
    calculateSimpleRevenue calculateBonusByProfit
  norm_num [runPipeline, aggregate, makeSellerStats, processRecord, processItem,
    updateLastMatching, findProduct, bumpSku, stableSort, insertStable, profitPrec,
    assignRank, topProducts, sellerEntries, quantityPrec, formatRow, nanGuardRound,
    toFixed2, jadd, jsub, jmul, calculateSimpleRevenue, calculateBonusByProfit]
  decide

/-! ## Claim C9 -/

/-- C9.  Whenever `analyzeSalesData` succeeds, the output has one row
per input seller, and the output `seller_id` values are exactly the input
seller ids (the two lists are even permutations of one another, so they are
equal as sets).  -/
theorem c9_output_ids (d : RawData) (options : RawOptions) (ss : List Seller)
    (rows : List ReportRow) (hs : d.sellers = some ss)
    (hok : analyzeSalesData (some d) options = .ok rows) :
    rows.length = ss.length ∧
      ∀ idv, idv ∈ rows.map (fun r => r.seller_id) ↔ idv ∈ ss.map (fun s => s.id) := by
  obtain ⟨os, op, or⟩ := d
  have hos : os = some ss := hs
  subst hos
  cases op with
  | none => exact absurd hok (by simp [analyzeSalesData])
  | some ps =>
    cases or with
    | none => exact absurd hok (by simp [analyzeSalesData])
    | some recs =>
      simp only [analyzeSalesData] at hok
      by_cases hempty : ss.isEmpty ∨ ps.isEmpty ∨ recs.isEmpty
      · rw [if_pos hempty] at hok
        cases hok
      · rw [if_neg hempty] at hok
        obtain ⟨ocr, ocb⟩ := options
        cases ocr with
        | none => cases hok
        | some cr =>
          cases ocb with
          | none => cases hok
          | some cb =>
            have hrows : runPipeline ss ps recs cr cb = rows := by
              injection hok
            subst hrows
            have hrun : runPipeline ss ps recs cr cb =
                (assignRank cb
                  (stableSort profitPrec (aggregate cr ps (makeSellerStats ss) recs)).length 0
                  (stableSort profitPrec (aggregate cr ps (makeSellerStats ss) recs))).map
                  formatRow := rfl
            have hmap : (runPipeline ss ps recs cr cb).map (fun r => r.seller_id) =
                (stableSort profitPrec (aggregate cr ps (makeSellerStats ss) recs)).map
                  (fun s => s.id) := by
              rw [hrun, List.map_map]
              have h1 : ((fun r => r.seller_id) ∘ formatRow) =
                  (fun r : RankedStat => r.stat.id) := by
                funext r
                exact formatRow_seller_id r
              rw [h1]
              conv_rhs => rw [← assignRank_map_stat cb
                (stableSort profitPrec (aggregate cr ps (makeSellerStats ss) recs)).length 0
                (stableSort profitPrec (aggregate cr ps (makeSellerStats ss) recs)),
                List.map_map]
              rfl
            have hperm : (stableSort profitPrec (aggregate cr ps (makeSellerStats ss) recs)).map
                (fun s => s.id) ~ ss.map (fun s => s.id) := by
              have h2 := (stableSort_perm profitPrec
                (aggregate cr ps (makeSellerStats ss) recs)).map (fun s => s.id)
              rw [aggregate_map_id, makeSellerStats_map_id] at h2
              exact h2
            constructor
            · have hlen1 : (runPipeline ss ps recs cr cb).length =
                  (stableSort profitPrec (aggregate cr ps (makeSellerStats ss) recs)).length := by
                rw [hrun, List.length_map, assignRank_length]
              have hlen2 := hperm.length_eq
              simp only [List.length_map] at hlen2
              rw [hlen1, hlen2]
            · intro idv
              rw [hmap]
              exact hperm.mem_iff

/-- C9, witness.  One seller in, one row out, with matching id.  -/
theorem c9_output_ids_witness :
    ([⟨"s1", "Ann Lee", 30, 10, 1, [⟨"p1", 2⟩], 3 / 2⟩] : List ReportRow).length =
        ([⟨"s1", "Ann", "Lee"⟩] : List Seller).length ∧
      ∀ idv, idv ∈ ([⟨"s1", "Ann Lee", 30, 10, 1, [⟨"p1", 2⟩], 3 / 2⟩] :
          List ReportRow).map (fun r => r.seller_id) ↔
        idv ∈ ([⟨"s1", "Ann", "Lee"⟩] : List Seller).map (fun s => s.id) := by
  apply c9_output_ids
    ⟨some [⟨"s1", "Ann", "Lee"⟩], some [⟨"p1", some 10⟩],
      some [⟨"s1", some 30, [⟨"p1", 2, 0, some 15⟩]⟩]⟩
    ⟨some calculateSimpleRevenue, some calculateBonusByProfit⟩
  · rfl
  · norm_num [analyzeSalesData, runPipeline, aggregate, makeSellerStats, processRecord,
      processItem, updateLastMatching, findProduct, bumpSku, stableSort, insertStable,
      profitPrec, assignRank, topProducts, sellerEntries, quantityPrec, formatRow,
      nanGuardRound, toFixed2, jadd, jsub, jmul, calculateSimpleRevenue,
      calculateBonusByProfit]
    decide

/-- C5, witness.  Empty `sellers` with an options object missing both
strategies still yields `InvalidInputError`: validation comes first.  -/
theorem c5_invalid_input_iff_witness :
    analyzeSalesData (some ⟨some [], some [⟨"p1", some 10⟩], some []⟩) ⟨none, none⟩ =
      .error .invalidInput :=
  ((c5_invalid_input_iff (some ⟨some [], some [⟨"p1", some 10⟩], some []⟩)).mpr
    (Or.inr ⟨⟨some [], some [⟨"p1", some 10⟩], some []⟩, rfl,
      Or.inr (Or.inr (Or.inr (Or.inl rfl)))⟩)) ⟨none, none⟩
